import Mathlib

/-!
Shallow embedding of the nenkin-simulation core (src/network.rs, src/types.rs,
src/core/mod.rs) and verification of its specification.

Modelling conventions:
* f64 scalars (coordinates and interpolation weights) are modelled exactly,
  over an arbitrary linearly ordered commutative ring `α` (so the theorems
  cover in particular `ℝ`, which contains every f64 value; concrete witnesses
  instantiate `α := ℤ`).  Every distance comparison in the source compares
  `Site::distance` values, i.e. square roots of sums of squares; since the
  square root is strictly monotone on nonnegative reals, those comparisons
  coincide with comparisons of `squared_distance`, which is what the
  embedding uses.
* Rust `Vec` indexing is modelled with `List.getD`; every theorem that relies
  on an index carries the in-bounds hypothesis under which the Rust code does
  not panic.
* The kd-tree (`kiddo::ImmutableKdTree`, an external collaborator) is modelled
  per the spec (§4.1) as the first index minimising squared Euclidean
  distance; the natural-neighbor `Interpolator` (external) is modelled by
  passing its query result as an explicit argument to `add_cache`.
* The `while` loop of `seartch_path` has no termination guarantee, so it is
  embedded with an explicit iteration budget (`fuel`); the outer `Option.none`
  means the loop has not returned within that budget.
-/

namespace Nenkin

variable {α : Type} [LinearOrderedCommRing α]

/-- Embedding of `Site` from src/core/mod.rs: an immutable 2D coordinate. -/
structure Site (α : Type) where
  x : α
  y : α
deriving DecidableEq

/-- Embedding of `Site::squared_distance` (`powi(2)` written as `^ 2`).  The source's
`Site::distance` is its square root; all comparisons of distances in the
source are equivalent to comparisons of squared distances. -/
def Site.squared_distance (a b : Site α) : α :=
  (a.x - b.x) ^ 2 + (a.y - b.y) ^ 2

/-- Embedding of `State` from src/types.rs. -/
inductive State where
  | none
  | live (age : Nat)
  | path (childIdx : Nat)
  | dead
  | wall
deriving DecidableEq, Repr

/-- Embedding of `Property` from src/types.rs: a site's state together with its optional
parent link. -/
structure Property where
  state : State
  parent : Option Nat
deriving DecidableEq, Repr

/-- Default used with `List.getD`; Rust would panic out of bounds, the
theorems carry in-bounds hypotheses instead. -/
def defaultProp : Property := ⟨State.none, Option.none⟩

/-- Embedding of `NumericProperty` from src/types.rs. -/
structure NumericProperty (α : Type) where
  state_none : α
  state_live : α
  state_path : α
  state_dead : α
  state_wall : α
deriving DecidableEq

/-- Embedding of `NumericProperty::add` (component-wise). -/
def NumericProperty.add (a b : NumericProperty α) : NumericProperty α :=
  ⟨a.state_none + b.state_none, a.state_live + b.state_live,
   a.state_path + b.state_path, a.state_dead + b.state_dead,
   a.state_wall + b.state_wall⟩

/-- Embedding of `NumericProperty::mul_scala` (scale every component). -/
def NumericProperty.mul_scala (a : NumericProperty α) (w : α) : NumericProperty α :=
  ⟨a.state_none * w, a.state_live * w, a.state_path * w,
   a.state_dead * w, a.state_wall * w⟩

/-- Embedding of `impl From<Property> for NumericProperty`: the one-hot encoding of the
state. -/
def NumericProperty.ofProperty (prop : Property) : NumericProperty α :=
  match prop.state with
  | State.none => ⟨1, 0, 0, 0, 0⟩
  | State.live _ => ⟨0, 1, 0, 0, 0⟩
  | State.path _ => ⟨0, 0, 1, 0, 0⟩
  | State.dead => ⟨0, 0, 0, 1, 0⟩
  | State.wall => ⟨0, 0, 0, 0, 1⟩

/-- The zero vector, identity of `NumericProperty.add`. -/
def npZero : NumericProperty α := ⟨0, 0, 0, 0, 0⟩

/-- Embedding of `terrain_graph::undirected::UndirectedGraph::neighbors_of`: the graph is
its per-site ordered adjacency list. -/
def neighbors_of (graph : List (List Nat)) (idx : Nat) : List Nat :=
  graph.getD idx []

/-- Embedding of `Network` from src/network.rs.  The kd-tree and interpolator fields are
external collaborators derived from `sites`; they are modelled functionally
(see `nearestIdx` and `add_cache`). -/
structure Network (α : Type) where
  sites : List (Site α)
  props : List Property
  graph : List (List Nat)
  weights_cache : List (Option (List (Nat × α)))
  lifetime : Option Nat
deriving DecidableEq

/-- Embedding of `Network::new`: every site starts as `None` with no parent, empty cache,
unset lifetime. -/
def initNetwork (sites : List (Site α)) (graph : List (List Nat)) : Network α :=
  { sites := sites
    props := List.replicate sites.length defaultProp
    graph := graph
    weights_cache := []
    lifetime := Option.none }

/-- Modelled from the spec (§4.1): the external kd-tree's
`nearest_one::<SquaredEuclidean>` returns an index of a site minimising the
squared Euclidean distance to the query point; ties are
implementation-defined, modelled as the first minimiser. -/
def nearestIdx (sites : List (Site α)) (p : Site α) : Nat :=
  (List.range sites.length).foldl
    (fun acc i =>
      if (sites.getD i ⟨0, 0⟩).squared_distance p <
          (sites.getD acc ⟨0, 0⟩).squared_distance p then i else acc) 0

/-- The body of the neighbor-selection fold inside `Network::seartch_path`
(src/network.rs:73-79), named for proof convenience: the running minimum is
replaced only on STRICT improvement (`min_dist_to > dist_to`), so exact ties
keep the EARLIER element. -/
def greedyStep (d : Nat → α) (acc : Option Nat) (n : Nat) : Option Nat :=
  match acc with
  | Option.some m => if d m > d n then Option.some n else Option.some m
  | Option.none => Option.some n

/-- The neighbor-selection fold of `Network::seartch_path`
(src/network.rs:68-79): running strict minimum of `d` over the list (the
source initialises `min_dist_to` to `f64::MAX`, which every finite distance
beats). -/
def greedySel (d : Nat → α) (l : List Nat) : Option Nat :=
  l.foldl (greedyStep d) Option.none

/-- One move of the greedy walk in `Network::seartch_path`: the neighbor of
`current` minimising distance to the site at `toIdx` (`none` if `current` has
no neighbor). -/
def greedyNext (net : Network α) (toIdx current : Nat) : Option Nat :=
  greedySel
    (fun n => (net.sites.getD n ⟨0, 0⟩).squared_distance
      (net.sites.getD toIdx ⟨0, 0⟩))
    (neighbors_of net.graph current)

/-- The `while` loop of `Network::seartch_path` with an explicit iteration
budget.  `Option.none` (outer) = budget exhausted, the Rust loop is still
running; `Option.some Option.none` = the loop returned "no path";
`Option.some (Option.some p)` = the loop returned path `p`. -/
def searchPathFuel (net : Network α) (toIdx : Nat) :
    Nat → Nat → Option (Option (List Nat))
  | 0, _ => Option.none
  | fuel + 1, current =>
    if current = toIdx then Option.some (Option.some [current])
    else
      match greedyNext net toIdx current with
      | Option.some nxt =>
        match searchPathFuel net toIdx fuel nxt with
        | Option.none => Option.none
        | Option.some Option.none => Option.some Option.none
        | Option.some (Option.some p) => Option.some (Option.some (current :: p))
      | Option.none => Option.some Option.none

/-- Embedding of `Network::seartch_path` (src/network.rs:64-88), fuel-indexed. -/
def seartch_path (net : Network α) (frm toIdx : Nat) (fuel : Nat) :
    Option (Option (List Nat)) :=
  searchPathFuel net toIdx fuel frm

/-- Embedding of `Network::set_wall` (src/network.rs:90-104), fuel-indexed like
`seartch_path`; outer `Option.none` = the call has not returned within the
budget. -/
def set_wall (net : Network α) (x y prev_x prev_y : α) (fuel : Nat) :
    Option (Network α) :=
  let nearest := nearestIdx net.sites ⟨x, y⟩
  let prev_nearest := nearestIdx net.sites ⟨prev_x, prev_y⟩
  match seartch_path net prev_nearest nearest fuel with
  | Option.none => Option.none
  | Option.some Option.none => Option.some net
  | Option.some (Option.some path) =>
    Option.some
      { net with
        props := path.foldl
          (fun ps idx => ps.set idx ⟨State.wall, Option.none⟩) net.props }

/-- Embedding of `Network::set_start` (src/network.rs:106-113). -/
def set_start (net : Network α) (x y : α) : Network α :=
  let nearest := nearestIdx net.sites ⟨x, y⟩
  { net with props := net.props.set nearest ⟨State.live 0, Option.none⟩ }

/-- Embedding of `Network::set_lifetime` (src/network.rs:115-117). -/
def set_lifetime (net : Network α) (lifetime : Nat) : Network α :=
  { net with lifetime := Option.some lifetime }

/-- Embedding of `Network::find_child` (src/network.rs:119-129): first neighbor (in the
graph's fixed order) whose parent is `idx`. -/
def find_child (net : Network α) (idx : Nat) : Option Nat :=
  (neighbors_of net.graph idx).find?
    (fun neighbor_idx =>
      decide ((net.props.getD neighbor_idx defaultProp).parent = Option.some idx))

/-- The closure of the live-neighbor filter in `calculate_next_prop`
(src/network.rs:141-146). -/
def isLiveState : State → Bool
  | State.live _ => true
  | _ => false

/-- The parent-selection fold in `calculate_next_prop`
(src/network.rs:157-166): keeps the accumulator only when it is STRICTLY
nearer (`distance > acc_distance` keeps `acc`), so exact ties prefer the
LATER element. -/
def selMin (d : Nat → α) (l : List Nat) : Option Nat :=
  l.foldl
    (fun acc i =>
      match acc with
      | Option.some a => if d i > d a then Option.some a else Option.some i
      | Option.none => Option.some i) Option.none

/-- Embedding of `Network::calculate_next_prop` (src/network.rs:131-227): the per-site
transition function, reading only the pre-step snapshot `net`. -/
def calculate_next_prop (net : Network α) (idx : Nat) (lifetime : Nat) : Property :=
  let target := net.props.getD idx defaultProp
  match target.state with
  | State.none =>
    let target_site := net.sites.getD idx ⟨0, 0⟩
    let neighbors := (neighbors_of net.graph idx).filter
      (fun neighbor_idx => isLiveState (net.props.getD neighbor_idx defaultProp).state)
    if neighbors.isEmpty then
      { state := target.state, parent := target.parent }
    else
      let parent_idx := selMin
        (fun n => target_site.squared_distance (net.sites.getD n ⟨0, 0⟩)) neighbors
      { state := State.live 0, parent := parent_idx }
  | State.live age =>
    let new_age := age + 1
    if new_age ≥ lifetime then
      match find_child net idx with
      | Option.some child_idx =>
        { state := State.path child_idx, parent := target.parent }
      | Option.none => { state := State.dead, parent := Option.none }
    else
      { state := State.live new_age, parent := target.parent }
  | State.path child_idx =>
    if (net.props.getD child_idx defaultProp).parent = Option.some idx then
      { state := target.state, parent := target.parent }
    else
      match find_child net idx with
      | Option.some c => { state := State.path c, parent := target.parent }
      | Option.none => { state := State.dead, parent := Option.none }
  | State.dead => { state := State.dead, parent := Option.none }
  | State.wall => { state := State.wall, parent := Option.none }

/-- Embedding of `Network::iterate` (src/network.rs:229-243): `false` and no change when
the lifetime is unset; otherwise map `calculate_next_prop` over the pre-step
snapshot and replace the whole array. -/
def iterate (net : Network α) : Network α × Bool :=
  match net.lifetime with
  | Option.none => (net, false)
  | Option.some lifetime =>
    ({ net with
       props := (List.range net.props.length).map
         (fun idx => calculate_next_prop net idx lifetime) }, true)

/-- Iteration of `iterate` `k` times (dropping the Bool). -/
def iterateK (net : Network α) : Nat → Network α
  | 0 => net
  | k + 1 => (iterate (iterateK net k)).1

/-- Embedding of `Network::get_nearest_site` (src/network.rs:245-248). -/
def get_nearest_site (net : Network α) (x y : α) : Option Nat :=
  Option.some (nearestIdx net.sites ⟨x, y⟩)

/-- Embedding of `Network::add_cache` (src/network.rs:250-255); `weights` is the result of
the external interpolator's `query_weights` for the given point. -/
def add_cache (net : Network α) (weights : Option (List (Nat × α))) :
    Network α × Nat :=
  ({ net with weights_cache := net.weights_cache ++ [weights] },
   net.weights_cache.length)

/-- Embedding of `Network::get_property` (src/network.rs:257-272). -/
def get_property (net : Network α) (key : Nat) : Option (NumericProperty α) :=
  match net.weights_cache.getD key Option.none with
  | Option.some weights =>
    (weights.map (fun iw =>
      (NumericProperty.ofProperty (net.props.getD iw.1 defaultProp)).mul_scala iw.2)).foldl
      (fun acc x =>
        match acc with
        | Option.some a => Option.some (a.add x)
        | Option.none => Option.some x) Option.none
  | Option.none => Option.none

/-- The spec's description of sampling: component-wise sum over the cached
`(siteIndex, weight)` pairs of `weight` times the one-hot `NumericProperty`
of the site's current state. -/
def blend (net : Network α) (weights : List (Nat × α)) : NumericProperty α :=
  (weights.map (fun iw =>
    (NumericProperty.ofProperty (net.props.getD iw.1 defaultProp)).mul_scala iw.2)).foldl
    NumericProperty.add npZero

/-- Networks reachable from the all-`None` initial state by any sequence of
`set_start` (seed), `set_wall` (markWall), `set_lifetime` and `iterate`
(step) calls. -/
inductive Reachable : Network α → Prop where
  | init (sites : List (Site α)) (graph : List (List Nat)) :
      Reachable (initNetwork sites graph)
  | seed {net : Network α} (x y : α) : Reachable net →
      Reachable (set_start net x y)
  | wall {net net' : Network α} (x y px py : α) (fuel : Nat) :
      Reachable net → set_wall net x y px py fuel = Option.some net' →
      Reachable net'
  | life {net : Network α} (n : Nat) : Reachable net →
      Reachable (set_lifetime net n)
  | step {net : Network α} : Reachable net → Reachable (iterate net).1

/-- The parent-link invariant of the spec: a site's parent is always one of
its graph-neighbors (in the symmetric sense: `i` occurs in `j`'s list). -/
def ParentsAreNeighbors (net : Network α) : Prop :=
  ∀ i j, i < net.props.length →
    (net.props.getD i defaultProp).parent = Option.some j →
    i ∈ neighbors_of net.graph j

/-- The symmetry assumption on the externally built adjacency graph. -/
def SymmetricGraph (graph : List (List Nat)) : Prop :=
  ∀ a b, a ∈ neighbors_of graph b → b ∈ neighbors_of graph a

/-! Concrete example networks (over `ℤ`), used as witnesses and
counterexamples. -/

/-- Five collinear sites, the spec's line-graph scenario. -/
def wSites : List (Site ℤ) := [⟨0, 0⟩, ⟨1, 0⟩, ⟨2, 0⟩, ⟨3, 0⟩, ⟨4, 0⟩]

/-- Line graph 0-1-2-3-4. -/
def wGraph : List (List Nat) := [[1], [0, 2], [1, 3], [2, 4], [3]]

/-- Line network, seeded at site 0, lifetime 2. -/
def wNet : Network ℤ := set_lifetime (set_start (initNetwork wSites wGraph) 0 0) 2

/-- The line network after one step. -/
def wNet1 : Network ℤ := (iterate wNet).1

/-- The line network after one step, with one registered cache key. -/
def wNetC : Network ℤ := (add_cache wNet1 (Option.some [(0, 1), (1, 2)])).1

/-- Two mutually adjacent sites plus an isolated third site: the greedy walk
from 0 towards 2 alternates between 0 and 1 forever. -/
def cexSites : List (Site ℤ) := [⟨0, 0⟩, ⟨1, 0⟩, ⟨10, 10⟩]

/-- Graph for `cexSites`: 0-1 adjacent, 2 isolated. -/
def cexGraph : List (List Nat) := [[1], [0], []]

/-- Network on `cexSites`. -/
def cexNet : Network ℤ := initNetwork cexSites cexGraph

/-- Two adjacent sites; seeding once at (5,0) makes site 1 `Live(0)`. -/
def seedSites : List (Site ℤ) := [⟨0, 0⟩, ⟨5, 0⟩]

/-- Graph for `seedSites`. -/
def seedGraph : List (List Nat) := [[1], [0]]

/-- Network with site 1 already `Live(0)` (obtained by a first seed call). -/
def seedNet : Network ℤ := set_start (initNetwork seedSites seedGraph) 5 0

/-- The line network after a wall is drawn between the points (3,0) and
(4,0): the greedy path [3, 4] is overwritten with `Wall`. -/
def wallNet : Network ℤ :=
  { sites := wSites
    props := [⟨State.live 0, Option.none⟩, defaultProp, defaultProp,
      ⟨State.wall, Option.none⟩, ⟨State.wall, Option.none⟩]
    graph := wGraph
    weights_cache := []
    lifetime := Option.some 2 }

/-! ## General helper lemmas -/

lemma getD_map_range {β : Type} (f : Nat → β) (n i : Nat) (d : β) (h : i < n) :
    ((List.range n).map f).getD i d = f i := by
  simp [List.getD_eq_getElem?_getD, List.getElem?_map, List.getElem?_range, h]

lemma iterate_props_length (net : Network α) :
    (iterate net).1.props.length = net.props.length := by
  cases h : net.lifetime <;> simp [iterate, h]

lemma iterate_sites (net : Network α) : (iterate net).1.sites = net.sites := by
  cases h : net.lifetime <;> simp [iterate, h]

lemma iterate_graph (net : Network α) : (iterate net).1.graph = net.graph := by
  cases h : net.lifetime <;> simp [iterate, h]

lemma iterate_weights_cache (net : Network α) :
    (iterate net).1.weights_cache = net.weights_cache := by
  cases h : net.lifetime <;> simp [iterate, h]

lemma iterate_props_getD (net : Network α) (L : Nat)
    (hL : net.lifetime = Option.some L) (i : Nat) (hi : i < net.props.length) :
    (iterate net).1.props.getD i defaultProp = calculate_next_prop net i L := by
  have hpr : (iterate net).1.props =
      (List.range net.props.length).map (fun idx => calculate_next_prop net idx L) := by
    simp [iterate, hL]
  rw [hpr]
  exact getD_map_range _ _ _ _ hi

lemma calculate_next_prop_congr (n1 n2 : Network α) (hs : n1.sites = n2.sites)
    (hg : n1.graph = n2.graph) (hp : n1.props = n2.props) (idx L : Nat) :
    calculate_next_prop n1 idx L = calculate_next_prop n2 idx L := by
  simp only [calculate_next_prop, find_child, neighbors_of, hs, hg, hp]

/-! ## Claim theorems -/

/-- C1: with the lifetime set, `iterate` computes every site's next property
purely from the pre-step snapshot (the new array is the pointwise image of
`calculate_next_prop` applied to the OLD network) and replaces the whole
array; consequently two networks with identical sites, graph, per-site state
and lifetime (the weight cache may even differ) step to identical state
arrays. -/
theorem iterate_snapshot_deterministic (n1 n2 : Network α) (L : Nat)
    (hL : n1.lifetime = Option.some L)
    (hs : n1.sites = n2.sites) (hg : n1.graph = n2.graph)
    (hp : n1.props = n2.props) (hl : n1.lifetime = n2.lifetime) :
    (iterate n1).1.props =
      (List.range n1.props.length).map (fun idx => calculate_next_prop n1 idx L) ∧
    (iterate n1).1.props = (iterate n2).1.props := by
  have hL2 : n2.lifetime = Option.some L := by rw [← hl, hL]
  constructor
  · simp [iterate, hL]
  · simp only [iterate, hL, hL2, hp]
    exact List.map_congr_left fun idx _ =>
      calculate_next_prop_congr n1 n2 hs hg hp idx L

/-- Witness for C1 at the concrete line network: the cache of the second copy
differs, the stepped state arrays agree. -/
theorem iterate_snapshot_deterministic_witness :
    (iterate wNet).1.props =
      (List.range wNet.props.length).map (fun idx => calculate_next_prop wNet idx 2) ∧
    (iterate wNet).1.props = (iterate (add_cache wNet (Option.some [])).1).1.props :=
  iterate_snapshot_deterministic wNet (add_cache wNet (Option.some [])).1 2
    rfl rfl rfl rfl rfl

/-- C9: `iterate` returns `false` and leaves the network (in particular the
per-site state array) unchanged when the lifetime is unset, and returns
`true` whenever the lifetime has been set. -/
theorem iterate_lifetime_gate (net : Network α) :
    (net.lifetime = Option.none → iterate net = (net, false)) ∧
    (∀ L, net.lifetime = Option.some L → (iterate net).2 = true) := by
  constructor
  · intro h; simp [iterate, h]
  · intro L h; simp [iterate, h]

/-- Witness for C9: an unset-lifetime network is untouched and signalled
`false`; the seeded line network (lifetime 2) steps and signals `true`. -/
theorem iterate_lifetime_gate_witness :
    iterate (initNetwork wSites wGraph) = (initNetwork wSites wGraph, false) ∧
    (iterate wNet).2 = true :=
  ⟨(iterate_lifetime_gate (initNetwork wSites wGraph)).1 rfl,
   (iterate_lifetime_gate wNet).2 2 rfl⟩

lemma find?_first {β : Type} (p : β → Bool) (l1 l2 : List β) (c : β)
    (h1 : ∀ x ∈ l1, ¬ p x = true) (hc : p c = true) :
    (l1 ++ c :: l2).find? p = Option.some c := by
  induction l1 with
  | nil => simpa using List.find?_cons_of_pos l2 hc
  | cons a t ih =>
    have ha : ¬ p a = true := h1 a (by simp)
    simp only [List.cons_append, List.find?_cons_of_neg _ ha]
    exact ih fun x hx => h1 x (by simp [hx])

/-- C3: a `Live(age)` site with the lifetime set ages to `Live(age+1)` with
parent unchanged while `age+1 < lifetime`; once `age+1 ≥ lifetime` it becomes
`Path(c)` (parent unchanged) where `c` is the FIRST graph-neighbor in the
fixed iteration order whose current parent is the site itself, and `Dead`
with parent cleared when no neighbor claims it. -/
theorem live_transition (net : Network α) (L i age : Nat) (par : Option Nat)
    (hL : net.lifetime = Option.some L) (hi : i < net.props.length)
    (hp : net.props.getD i defaultProp = ⟨State.live age, par⟩) :
    (age + 1 < L →
      (iterate net).1.props.getD i defaultProp = ⟨State.live (age + 1), par⟩) ∧
    (L ≤ age + 1 →
      (∀ n ∈ neighbors_of net.graph i,
        (net.props.getD n defaultProp).parent ≠ Option.some i) →
      (iterate net).1.props.getD i defaultProp = ⟨State.dead, Option.none⟩) ∧
    (L ≤ age + 1 →
      ∀ c l1 l2, neighbors_of net.graph i = l1 ++ c :: l2 →
        (net.props.getD c defaultProp).parent = Option.some i →
        (∀ n ∈ l1, (net.props.getD n defaultProp).parent ≠ Option.some i) →
      (iterate net).1.props.getD i defaultProp = ⟨State.path c, par⟩) := by
  rw [iterate_props_getD net L hL i hi]
  refine ⟨?_, ?_, ?_⟩
  · intro hage
    simp only [calculate_next_prop, hp]
    simp [Nat.not_le.mpr hage]
  · intro hage hnone
    have hfc : find_child net i = Option.none := by
      simp only [find_child, List.find?_eq_none, decide_eq_true_eq]
      exact hnone
    simp only [calculate_next_prop, hp, hfc]
    simp [hage]
  · intro hage c l1 l2 hsplit hc hl1
    have hfc : find_child net i = Option.some c := by
      rw [find_child, hsplit]
      exact find?_first _ l1 l2 c (by simpa using hl1) (by simpa using hc)
    simp only [calculate_next_prop, hp, hfc]
    simp [hage]

/-- Witness for C3 on the line network: after one step site 1 is `Live(1)`
(aging), and after the second step site 0 (age 1, lifetime 2 reached, site 1
claims it as parent) becomes `Path(1)`. -/
theorem live_transition_witness :
    (iterate wNet1).1.props.getD 1 defaultProp =
      ⟨State.live 1, Option.some 0⟩ ∧
    (iterate wNet1).1.props.getD 0 defaultProp = ⟨State.path 1, Option.none⟩ :=
  ⟨(live_transition wNet1 2 1 0 (Option.some 0) rfl (by decide) (by decide)).1
    (by decide),
   (live_transition wNet1 2 0 1 Option.none rfl (by decide) (by decide)).2.2
    (by decide) 1 [] [] (by decide) (by decide) (by decide)⟩

lemma selMin_append (d : Nat → α) (l : List Nat) (x : Nat) :
    selMin d (l ++ [x]) =
      match selMin d l with
      | Option.some a => if d x > d a then Option.some a else Option.some x
      | Option.none => Option.some x := by
  simp [selMin, List.foldl_append]

lemma selMin_spec (d : Nat → α) (l : List Nat) (hl : l ≠ []) :
    ∃ m, selMin d l = Option.some m ∧ m ∈ l ∧ (∀ n ∈ l, d m ≤ d n) ∧
      ∃ l1 l2, l = l1 ++ m :: l2 ∧ ∀ n ∈ l2, d m < d n := by
  induction l using List.reverseRecOn with
  | nil => exact absurd rfl hl
  | append_singleton t x ih =>
    rcases eq_or_ne t [] with rfl | ht
    · exact ⟨x, by simp [selMin], by simp, by simp, [], [], by simp, by simp⟩
    · obtain ⟨m, hsel, hmem, hmin, l1, l2, hsplit, hlast⟩ := ih ht
      rw [selMin_append, hsel]
      by_cases hx : d x > d m
      · refine ⟨m, by simp [hx], by simp [hmem], ?_, l1, l2 ++ [x], ?_, ?_⟩
        · intro n hn
          rcases List.mem_append.mp hn with h | h
          · exact hmin n h
          · simp only [List.mem_singleton] at h
            subst h
            exact le_of_lt hx
        · rw [hsplit]; simp
        · intro n hn
          rcases List.mem_append.mp hn with h | h
          · exact hlast n h
          · simp only [List.mem_singleton] at h
            subst h
            exact hx
      · push_neg at hx
        refine ⟨x, by simp [not_lt.mpr hx], by simp, ?_, t, [], by simp, by simp⟩
        intro n hn
        rcases List.mem_append.mp hn with h | h
        · exact le_trans hx (hmin n h)
        · simp only [List.mem_singleton] at h
          subst h
          exact le_refl _

/-- C4: a `None` site with at least one currently-`Live` graph-neighbor
becomes `Live(0)` whose parent is the Live neighbor nearest by Euclidean
distance, exact-distance ties preferring the neighbor encountered LATER in
the fixed neighbor-iteration order (every strictly later live neighbor is
strictly farther); a `None` site with no Live neighbor stays `None` with
parent unchanged. -/
theorem none_transition (net : Network α) (L i : Nat) (par : Option Nat)
    (hL : net.lifetime = Option.some L) (hi : i < net.props.length)
    (hp : net.props.getD i defaultProp = ⟨State.none, par⟩) :
    ((neighbors_of net.graph i).filter
        (fun n => isLiveState (net.props.getD n defaultProp).state) = [] →
      (iterate net).1.props.getD i defaultProp = ⟨State.none, par⟩) ∧
    (∀ live, (neighbors_of net.graph i).filter
        (fun n => isLiveState (net.props.getD n defaultProp).state) = live →
      live ≠ [] →
      ∃ m, (iterate net).1.props.getD i defaultProp =
          ⟨State.live 0, Option.some m⟩ ∧ m ∈ live ∧
        (∀ n ∈ live,
          (net.sites.getD i ⟨0, 0⟩).squared_distance (net.sites.getD m ⟨0, 0⟩) ≤
          (net.sites.getD i ⟨0, 0⟩).squared_distance (net.sites.getD n ⟨0, 0⟩)) ∧
        ∃ l1 l2, live = l1 ++ m :: l2 ∧ ∀ n ∈ l2,
          (net.sites.getD i ⟨0, 0⟩).squared_distance (net.sites.getD m ⟨0, 0⟩) <
          (net.sites.getD i ⟨0, 0⟩).squared_distance (net.sites.getD n ⟨0, 0⟩)) := by
  rw [iterate_props_getD net L hL i hi]
  constructor
  · intro hfil
    simp only [calculate_next_prop, hp]
    rw [hfil]
    simp
  · intro live hfil hne
    obtain ⟨m, hsel, hmem, hmin, hsplit⟩ := selMin_spec
      (fun n => (net.sites.getD i ⟨0, 0⟩).squared_distance (net.sites.getD n ⟨0, 0⟩))
      live hne
    refine ⟨m, ?_, hmem, hmin, hsplit⟩
    have hemp : live.isEmpty = false := by
      cases live with
      | nil => exact absurd rfl hne
      | cons a t => rfl
    simp only [calculate_next_prop, hp]
    rw [hfil, hemp, if_neg Bool.false_ne_true, hsel]

/-- Witness for C4 on the line network: site 4 (no live neighbor) stays
`None`; site 1 (single live neighbor 0) becomes `Live(0)` with parent 0. -/
theorem none_transition_witness :
    ((iterate wNet).1.props.getD 4 defaultProp = ⟨State.none, Option.none⟩) ∧
    ∃ m, (iterate wNet).1.props.getD 1 defaultProp =
        ⟨State.live 0, Option.some m⟩ ∧ m ∈ [0] ∧
      (∀ n ∈ [0],
        (wNet.sites.getD 1 ⟨0, 0⟩).squared_distance (wNet.sites.getD m ⟨0, 0⟩) ≤
        (wNet.sites.getD 1 ⟨0, 0⟩).squared_distance (wNet.sites.getD n ⟨0, 0⟩)) ∧
      ∃ l1 l2, [0] = l1 ++ m :: l2 ∧ ∀ n ∈ l2,
        (wNet.sites.getD 1 ⟨0, 0⟩).squared_distance (wNet.sites.getD m ⟨0, 0⟩) <
        (wNet.sites.getD 1 ⟨0, 0⟩).squared_distance (wNet.sites.getD n ⟨0, 0⟩) :=
  ⟨(none_transition wNet 2 4 Option.none rfl (by decide) (by decide)).1 (by decide),
   (none_transition wNet 2 1 Option.none rfl (by decide) (by decide)).2
     [0] (by decide) (by decide)⟩

lemma foldl_min_mem (d : Nat → α) (l : List Nat) :
    ∀ a, l.foldl (fun acc i => if d i < d acc then i else acc) a = a ∨
      l.foldl (fun acc i => if d i < d acc then i else acc) a ∈ l := by
  induction l with
  | nil => intro a; exact Or.inl rfl
  | cons x t ih =>
    intro a
    simp only [List.foldl_cons]
    by_cases hx : d x < d a
    · rw [if_pos hx]
      rcases ih x with h | h
      · exact Or.inr (by simp [h])
      · exact Or.inr (by simp [h])
    · rw [if_neg hx]
      rcases ih a with h | h
      · exact Or.inl h
      · exact Or.inr (by simp [h])

lemma foldl_min_le (d : Nat → α) (l : List Nat) :
    ∀ a, d (l.foldl (fun acc i => if d i < d acc then i else acc) a) ≤ d a ∧
      ∀ x ∈ l, d (l.foldl (fun acc i => if d i < d acc then i else acc) a) ≤ d x := by
  induction l with
  | nil => intro a; exact ⟨le_refl _, by simp⟩
  | cons x t ih =>
    intro a
    simp only [List.foldl_cons]
    by_cases hx : d x < d a
    · rw [if_pos hx]
      obtain ⟨h1, h2⟩ := ih x
      refine ⟨le_trans h1 (le_of_lt hx), ?_⟩
      intro y hy
      rcases List.mem_cons.mp hy with rfl | hy
      · exact h1
      · exact h2 y hy
    · rw [if_neg hx]
      obtain ⟨h1, h2⟩ := ih a
      refine ⟨h1, ?_⟩
      intro y hy
      rcases List.mem_cons.mp hy with rfl | hy
      · exact le_trans h1 (not_lt.mp hx)
      · exact h2 y hy

lemma nearestIdx_lt (sites : List (Site α)) (p : Site α) (h : sites ≠ []) :
    nearestIdx sites p < sites.length := by
  have hlen : 0 < sites.length := List.length_pos.mpr h
  unfold nearestIdx
  rcases foldl_min_mem (fun k => (sites.getD k ⟨0, 0⟩).squared_distance p)
    (List.range sites.length) 0 with h0 | hm
  · rw [h0]; exact hlen
  · exact List.mem_range.mp hm

lemma nearestIdx_min (sites : List (Site α)) (p : Site α) :
    ∀ j, j < sites.length →
      (sites.getD (nearestIdx sites p) ⟨0, 0⟩).squared_distance p ≤
      (sites.getD j ⟨0, 0⟩).squared_distance p := by
  intro j hj
  unfold nearestIdx
  exact (foldl_min_le (fun k => (sites.getD k ⟨0, 0⟩).squared_distance p)
    (List.range sites.length) 0).2 j (List.mem_range.mpr hj)

/-- C10: `get_nearest_site` never returns `none` on a network with at least
one site — the `none` branch of the exposed interface is unreachable. -/
theorem get_nearest_site_always_some (net : Network α) (x y : α)
    (h : net.sites ≠ []) :
    ∃ i, get_nearest_site net x y = Option.some i ∧ i < net.sites.length :=
  ⟨nearestIdx net.sites ⟨x, y⟩, rfl, nearestIdx_lt net.sites ⟨x, y⟩ h⟩

/-- Witness for C10 on a concrete three-site network. -/
theorem get_nearest_site_always_some_witness :
    ∃ i, get_nearest_site cexNet 0 0 = Option.some i ∧ i < cexNet.sites.length :=
  get_nearest_site_always_some cexNet 0 0 (by decide)

lemma getD_set_self {β : Type} (l : List β) (i : Nat) (v d : β)
    (h : i < l.length) : (l.set i v).getD i d = v := by
  simp [List.getD_eq_getElem?_getD, List.getElem?_set_self h]

lemma getD_set_ne {β : Type} (l : List β) (i j : Nat) (v d : β) (h : i ≠ j) :
    (l.set i v).getD j d = l.getD j d := by
  simp [List.getD_eq_getElem?_getD, List.getElem?_set_ne h]

/-- C6 (amended): `set_start` mutates exactly one entry — the nearest site to
the query point — forcing it to `Live(0)` with no parent regardless of its
prior state, and leaves every other site's (state, parent) pair unchanged;
the seeded site minimises the squared distance to the point, and exactly one
site is `Live(0)` afterwards PROVIDED no other site was already `Live(0)`
before the call. -/
theorem set_start_spec (net : Network α) (x y : α)
    (hne : net.sites ≠ []) (hlen : net.props.length = net.sites.length) :
    (set_start net x y).props.getD (nearestIdx net.sites ⟨x, y⟩) defaultProp =
      ⟨State.live 0, Option.none⟩ ∧
    (∀ j, j ≠ nearestIdx net.sites ⟨x, y⟩ →
      (set_start net x y).props.getD j defaultProp = net.props.getD j defaultProp) ∧
    (∀ j, j < net.sites.length →
      (net.sites.getD (nearestIdx net.sites ⟨x, y⟩) ⟨0, 0⟩).squared_distance ⟨x, y⟩ ≤
      (net.sites.getD j ⟨0, 0⟩).squared_distance ⟨x, y⟩) ∧
    ((∀ j, j < net.props.length → j ≠ nearestIdx net.sites ⟨x, y⟩ →
        (net.props.getD j defaultProp).state ≠ State.live 0) →
      ∀ j, j < net.props.length →
        (((set_start net x y).props.getD j defaultProp).state = State.live 0 ↔
          j = nearestIdx net.sites ⟨x, y⟩)) := by
  have hb : nearestIdx net.sites ⟨x, y⟩ < net.props.length := by
    rw [hlen]; exact nearestIdx_lt net.sites ⟨x, y⟩ hne
  have h1 : (set_start net x y).props.getD (nearestIdx net.sites ⟨x, y⟩) defaultProp =
      ⟨State.live 0, Option.none⟩ := by
    unfold set_start
    exact getD_set_self _ _ _ _ hb
  have h2 : ∀ j, j ≠ nearestIdx net.sites ⟨x, y⟩ →
      (set_start net x y).props.getD j defaultProp = net.props.getD j defaultProp := by
    intro j hj
    unfold set_start
    exact getD_set_ne _ _ _ _ _ (Ne.symm hj)
  refine ⟨h1, h2, fun j hj => nearestIdx_min net.sites ⟨x, y⟩ j hj, ?_⟩
  intro hothers j hj
  constructor
  · intro hlive
    by_contra hne'
    rw [h2 j hne'] at hlive
    exact hothers j hj hne' hlive
  · intro hj'
    rw [hj', h1]

/-- Counterexample for C6 as stated: after a second seed call at the other
end of `seedNet` (whose site 1 is already `Live(0)` from the first seed),
TWO sites are `Live(0)` — the "afterwards exactly one site is `Live(0)`"
clause fails. -/
theorem set_start_unique_live_refuted :
    ((set_start seedNet 0 0).props.filter
      (fun p => decide (p.state = State.live 0))).length = 2 := by decide

/-- Witness for C6's amended theorem on the two-site network before any
seeding: the all-`None` prior state satisfies the uniqueness side condition,
so after seeding exactly site 0 is `Live(0)`. -/
theorem set_start_spec_witness :
    (set_start (initNetwork seedSites seedGraph) 0 0).props.getD
      (nearestIdx (initNetwork seedSites seedGraph).sites ⟨0, 0⟩) defaultProp =
      ⟨State.live 0, Option.none⟩ ∧
    (((set_start (initNetwork seedSites seedGraph) 0 0).props.getD 1
        defaultProp).state = State.live 0 ↔
      1 = nearestIdx (initNetwork seedSites seedGraph).sites ⟨0, 0⟩) := by
  refine ⟨(set_start_spec (initNetwork seedSites seedGraph) 0 0
    (by decide) (by decide)).1, ?_⟩
  exact (set_start_spec (initNetwork seedSites seedGraph) 0 0
    (by decide) (by decide)).2.2.2 (by decide) 1 (by decide)

lemma foldl_opt_add (l : List (NumericProperty α)) (a : NumericProperty α) :
    l.foldl
      (fun acc x =>
        match acc with
        | Option.some a => Option.some (a.add x)
        | Option.none => Option.some x) (Option.some a) =
    Option.some (l.foldl NumericProperty.add a) := by
  induction l generalizing a with
  | nil => rfl
  | cons x t ih =>
    simp only [List.foldl_cons]
    exact ih (a.add x)

lemma foldl_opt_add_of_cons (a : NumericProperty α) (t : List (NumericProperty α)) :
    (a :: t).foldl
      (fun acc x =>
        match acc with
        | Option.some a => Option.some (a.add x)
        | Option.none => Option.some x) Option.none =
    Option.some (t.foldl NumericProperty.add a) := by
  rw [List.foldl_cons]
  exact foldl_opt_add t a

lemma npZero_add (x : NumericProperty α) : NumericProperty.add npZero x = x := by
  cases x
  simp [npZero, NumericProperty.add]

lemma get_property_of_no_entry (net : Network α) (key : Nat)
    (hw : net.weights_cache.getD key Option.none = Option.none) :
    get_property net key = Option.none := by
  rw [get_property, hw]

lemma get_property_of_entry (net : Network α) (key : Nat) (ws : List (Nat × α))
    (hw : net.weights_cache.getD key Option.none = Option.some ws) :
    get_property net key =
      (ws.map (fun iw =>
        (NumericProperty.ofProperty (net.props.getD iw.1 defaultProp)).mul_scala iw.2)).foldl
        (fun acc x =>
          match acc with
          | Option.some a => Option.some (a.add x)
          | Option.none => Option.some x) Option.none := by
  rw [get_property, hw]

/-- C5: for a registered key, `get_property` returns `none` exactly when the
cached entry is "no coverage" or its weight list is empty; otherwise it
returns the component-wise weighted sum of the one-hot encodings of the
sites' CURRENT states, and the cached weight lists are untouched by any
number of `iterate` calls. -/
theorem get_property_spec (net : Network α) (key : Nat)
    (hk : key < net.weights_cache.length) :
    (get_property net key = Option.none ↔
      net.weights_cache.getD key Option.none = Option.none ∨
      net.weights_cache.getD key Option.none = Option.some []) ∧
    (∀ ws, net.weights_cache.getD key Option.none = Option.some ws → ws ≠ [] →
      get_property net key = Option.some (blend net ws)) ∧
    (∀ k, (iterateK net k).weights_cache = net.weights_cache) := by
  refine ⟨?_, ?_, ?_⟩
  · cases hw : net.weights_cache.getD key Option.none with
    | none => simp [get_property_of_no_entry net key hw, hw]
    | some ws =>
      cases ws with
      | nil => simp [get_property_of_entry net key [] hw, hw]
      | cons a t =>
        rw [get_property_of_entry net key (a :: t) hw, List.map_cons,
          foldl_opt_add_of_cons]
        simp [hw]
  · intro ws hw hne
    cases ws with
    | nil => exact absurd rfl hne
    | cons a t =>
      rw [get_property_of_entry net key (a :: t) hw, List.map_cons,
        foldl_opt_add_of_cons]
      simp only [blend, List.map_cons, List.foldl_cons]
      rw [npZero_add]
  · intro k
    induction k with
    | zero => rfl
    | succ n ih =>
      show (iterate (iterateK net n)).1.weights_cache = net.weights_cache
      rw [iterate_weights_cache, ih]

/-- Witness for C5 on the cached line network (key 0, weights
`[(0,1),(1,2)]`): sampling blends the current states with the cached
weights, and three steps leave the cache unchanged. -/
theorem get_property_spec_witness :
    get_property wNetC 0 = Option.some (blend wNetC [(0, 1), (1, 2)]) ∧
    (iterateK wNetC 3).weights_cache = wNetC.weights_cache :=
  ⟨(get_property_spec wNetC 0 (by decide)).2.1 [(0, 1), (1, 2)]
    (by decide) (by decide),
   (get_property_spec wNetC 0 (by decide)).2.2 3⟩

lemma searchPath_cex_loops : ∀ fuel,
    searchPathFuel cexNet 2 fuel 0 = Option.none ∧
    searchPathFuel cexNet 2 fuel 1 = Option.none := by
  intro fuel
  induction fuel with
  | zero => exact ⟨rfl, rfl⟩
  | succ n ih =>
    have h0 : greedyNext cexNet 2 0 = Option.some 1 := by decide
    have h1 : greedyNext cexNet 2 1 = Option.some 0 := by decide
    constructor
    · rw [searchPathFuel, if_neg (by decide : ¬ (0 = 2)), h0]
      show (match searchPathFuel cexNet 2 n 1 with
        | Option.none => Option.none
        | Option.some Option.none => Option.some Option.none
        | Option.some (Option.some p) => Option.some (Option.some (0 :: p))) =
        Option.none
      rw [ih.2]
    · rw [searchPathFuel, if_neg (by decide : ¬ (1 = 2)), h1]
      show (match searchPathFuel cexNet 2 n 0 with
        | Option.none => Option.none
        | Option.some Option.none => Option.some Option.none
        | Option.some (Option.some p) => Option.some (Option.some (1 :: p))) =
        Option.none
      rw [ih.1]

/-- Counterexample for C2 as stated: on `cexNet` (sites 0 and 1 mutually
adjacent, target site 2 isolated) the greedy walk from 0 towards 2 moves
0 → 1 → 0 → 1 → … and never returns, under ANY iteration budget. -/
theorem seartch_path_no_termination :
    ¬ ∃ fuel r, seartch_path cexNet 0 2 fuel = Option.some r := by
  rintro ⟨fuel, r, h⟩
  rw [seartch_path, (searchPath_cex_loops fuel).1] at h
  exact Option.noConfusion h

lemma searchPathFuel_mono (net : Network α) (toIdx : Nat) :
    ∀ fuel fuel' current r, fuel ≤ fuel' →
      searchPathFuel net toIdx fuel current = Option.some r →
      searchPathFuel net toIdx fuel' current = Option.some r := by
  intro fuel
  induction fuel with
  | zero =>
    intro fuel' current r _ h
    exact Option.noConfusion h
  | succ n ih =>
    intro fuel' current r hle h
    obtain ⟨m, rfl⟩ : ∃ m, fuel' = m + 1 := ⟨fuel' - 1, by omega⟩
    by_cases hc : current = toIdx
    · rw [searchPathFuel, if_pos hc] at h ⊢
      exact h
    · rw [searchPathFuel, if_neg hc] at h ⊢
      cases hg : greedyNext net toIdx current with
      | none =>
        rw [hg] at h
        exact h
      | some nxt =>
        rw [hg] at h
        have h' : (match searchPathFuel net toIdx n nxt with
            | Option.none => Option.none
            | Option.some Option.none => Option.some Option.none
            | Option.some (Option.some p) =>
              Option.some (Option.some (current :: p))) = Option.some r := h
        show (match searchPathFuel net toIdx m nxt with
          | Option.none => Option.none
          | Option.some Option.none => Option.some Option.none
          | Option.some (Option.some p) =>
            Option.some (Option.some (current :: p))) = Option.some r
        cases hs : searchPathFuel net toIdx n nxt with
        | none =>
          rw [hs] at h'
          exact Option.noConfusion h'
        | some ro =>
          rw [hs] at h'
          rw [ih m nxt ro (by omega) hs]
          cases ro with
          | none => exact h'
          | some p => exact h'

/-- C2 (amended): the greedy path search is not guaranteed to terminate — on
`cexNet` it loops forever (see the counterexample) — but its result is a
stable function of the input: whenever the loop returns an answer (a path or
"no path found") within some iteration budget, every larger budget returns
the same answer. -/
theorem seartch_path_result_stable (net : Network α) (frm toIdx fuel fuel' : Nat)
    (r : Option (List Nat)) (hle : fuel ≤ fuel')
    (h : seartch_path net frm toIdx fuel = Option.some r) :
    seartch_path net frm toIdx fuel' = Option.some r :=
  searchPathFuel_mono net toIdx fuel fuel' frm r hle h

/-- Witness for C2's amended theorem: from 0 to the adjacent site 1 the walk
returns the path `[0, 1]` with budget 2, hence also with budget 10. -/
theorem seartch_path_result_stable_witness :
    seartch_path cexNet 0 1 10 = Option.some (Option.some [0, 1]) :=
  seartch_path_result_stable cexNet 0 1 2 10 (Option.some [0, 1])
    (by decide) (by decide)

lemma getD_oob {β : Type} (l : List β) (i : Nat) (d : β) (h : l.length ≤ i) :
    l.getD i d = d := by
  rw [List.getD_eq_getElem?_getD, List.getElem?_eq_none h]
  rfl

lemma neighbors_of_lt (graph : List (List Nat)) (bound : Nat)
    (hg : ∀ l ∈ graph, ∀ n ∈ l, n < bound) (i : Nat) :
    ∀ n ∈ neighbors_of graph i, n < bound := by
  intro n hn
  unfold neighbors_of at hn
  rcases lt_or_ge i graph.length with hi | hi
  · have hget : graph.getD i [] = graph[i] := by
      simp [List.getD_eq_getElem?_getD, List.getElem?_eq_getElem hi]
    rw [hget] at hn
    exact hg _ (List.getElem_mem hi) n hn
  · rw [getD_oob _ _ _ hi] at hn
    cases hn

lemma greedyStep_none (d : Nat → α) (n : Nat) :
    greedyStep d Option.none n = Option.some n := rfl

lemma greedyStep_some (d : Nat → α) (m n : Nat) :
    greedyStep d (Option.some m) n =
      if d m > d n then Option.some n else Option.some m := rfl

lemma greedySel_mem_aux (d : Nat → α) (l : List Nat) :
    ∀ a m, l.foldl (greedyStep d) a = Option.some m →
      a = Option.some m ∨ m ∈ l := by
  induction l with
  | nil =>
    intro a m h
    exact Or.inl h
  | cons x t ih =>
    intro a m h
    simp only [List.foldl_cons] at h
    cases a with
    | none =>
      rw [greedyStep_none] at h
      rcases ih (Option.some x) m h with h' | h'
      · exact Or.inr (by simp [Option.some.inj h'])
      · exact Or.inr (by simp [h'])
    | some b =>
      rw [greedyStep_some] at h
      by_cases hb : d b > d x
      · rw [if_pos hb] at h
        rcases ih (Option.some x) m h with h' | h'
        · exact Or.inr (by simp [Option.some.inj h'])
        · exact Or.inr (by simp [h'])
      · rw [if_neg hb] at h
        rcases ih (Option.some b) m h with h' | h'
        · exact Or.inl h'
        · exact Or.inr (by simp [h'])

lemma greedyNext_mem (net : Network α) (toIdx current m : Nat)
    (h : greedyNext net toIdx current = Option.some m) :
    m ∈ neighbors_of net.graph current := by
  unfold greedyNext greedySel at h
  rcases greedySel_mem_aux _ _ Option.none m h with h' | h'
  · exact Option.noConfusion h'
  · exact h'

lemma searchPathFuel_mem_lt (net : Network α) (toIdx : Nat)
    (hg : ∀ l ∈ net.graph, ∀ n ∈ l, n < net.sites.length) :
    ∀ fuel current p, current < net.sites.length →
      searchPathFuel net toIdx fuel current = Option.some (Option.some p) →
      ∀ i ∈ p, i < net.sites.length := by
  intro fuel
  induction fuel with
  | zero =>
    intro current p _ h
    exact Option.noConfusion h
  | succ n ih =>
    intro current p hcur h
    rw [searchPathFuel] at h
    by_cases hc : current = toIdx
    · rw [if_pos hc] at h
      obtain rfl : [current] = p := Option.some.inj (Option.some.inj h)
      intro i hi
      rw [List.mem_singleton] at hi
      subst hi
      exact hcur
    · rw [if_neg hc] at h
      cases hgn : greedyNext net toIdx current with
      | none =>
        rw [hgn] at h
        exact Option.noConfusion (Option.some.inj h)
      | some nxt =>
        rw [hgn] at h
        have h' : (match searchPathFuel net toIdx n nxt with
            | Option.none => Option.none
            | Option.some Option.none => Option.some Option.none
            | Option.some (Option.some q) =>
              Option.some (Option.some (current :: q))) =
            Option.some (Option.some p) := h
        cases hs : searchPathFuel net toIdx n nxt with
        | none =>
          rw [hs] at h'
          exact Option.noConfusion h'
        | some ro =>
          rw [hs] at h'
          cases ro with
          | none => exact Option.noConfusion (Option.some.inj h')
          | some q =>
            obtain rfl : current :: q = p := Option.some.inj (Option.some.inj h')
            have hnxt : nxt < net.sites.length :=
              neighbors_of_lt net.graph net.sites.length hg current nxt
                (greedyNext_mem net toIdx current nxt hgn)
            intro i hi
            rcases List.mem_cons.mp hi with rfl | hi
            · exact hcur
            · exact ih nxt q hnxt hs i hi

lemma foldl_set_length (l : List Nat) (v : Property) :
    ∀ props : List Property,
      (l.foldl (fun ps idx => ps.set idx v) props).length = props.length := by
  induction l with
  | nil => intro props; rfl
  | cons x t ih =>
    intro props
    simp only [List.foldl_cons]
    rw [ih, List.length_set]

lemma foldl_set_not_mem (l : List Nat) (v : Property) (j : Nat) (hj : j ∉ l) :
    ∀ props : List Property,
      (l.foldl (fun ps idx => ps.set idx v) props).getD j defaultProp =
      props.getD j defaultProp := by
  induction l with
  | nil => intro props; rfl
  | cons x t ih =>
    intro props
    simp only [List.foldl_cons]
    rw [ih (fun h => hj (by simp [h])) (props.set x v),
      getD_set_ne _ _ _ _ _ (fun hxj => hj (by simp [hxj]))]

lemma foldl_set_mem (l : List Nat) (v : Property) (j : Nat) (hj : j ∈ l) :
    ∀ props : List Property, j < props.length →
      (l.foldl (fun ps idx => ps.set idx v) props).getD j defaultProp = v := by
  induction l with
  | nil => exact absurd hj (by simp)
  | cons x t ih =>
    intro props hlen
    simp only [List.foldl_cons]
    by_cases hjt : j ∈ t
    · exact ih hjt (props.set x v) (by rw [List.length_set]; exact hlen)
    · have hx : x = j := by
        rcases List.mem_cons.mp hj with h | h
        · exact h.symm
        · exact absurd h hjt
      subst hx
      rw [foldl_set_not_mem t v x hjt (props.set x v)]
      exact getD_set_self props x v defaultProp hlen

/-- C8: `set_wall` either finds a greedy path between the nearest sites of
the two points and overwrites exactly the sites on that path with `Wall`
(parent cleared), leaving every other site untouched, or — when the search
reports "no path found" — returns the network completely unchanged. -/
theorem set_wall_spec (net : Network α) (x y px py : α) (fuel : Nat)
    (net' : Network α) (hne : net.sites ≠ [])
    (hlen : net.props.length = net.sites.length)
    (hg : ∀ l ∈ net.graph, ∀ n ∈ l, n < net.sites.length)
    (h : set_wall net x y px py fuel = Option.some net') :
    (∃ p, seartch_path net (nearestIdx net.sites ⟨px, py⟩)
        (nearestIdx net.sites ⟨x, y⟩) fuel = Option.some (Option.some p) ∧
      (∀ i ∈ p, net'.props.getD i defaultProp = ⟨State.wall, Option.none⟩) ∧
      (∀ j, j ∉ p → net'.props.getD j defaultProp = net.props.getD j defaultProp)) ∨
    (seartch_path net (nearestIdx net.sites ⟨px, py⟩)
        (nearestIdx net.sites ⟨x, y⟩) fuel = Option.some Option.none ∧
      net' = net) := by
  simp only [set_wall] at h
  cases hs : seartch_path net (nearestIdx net.sites ⟨px, py⟩)
      (nearestIdx net.sites ⟨x, y⟩) fuel with
  | none =>
    rw [hs] at h
    exact Option.noConfusion h
  | some ro =>
    rw [hs] at h
    cases ro with
    | none =>
      exact Or.inr ⟨rfl, (Option.some.inj h).symm⟩
    | some p =>
      obtain rfl : _ = net' := Option.some.inj h
      refine Or.inl ⟨p, rfl, ?_, ?_⟩
      · intro i hip
        have hi : i < net.props.length := by
          rw [hlen]
          exact searchPathFuel_mem_lt net _ hg fuel _ p
            (nearestIdx_lt net.sites ⟨px, py⟩ hne) hs i hip
        exact foldl_set_mem p _ i hip net.props hi
      · intro j hjp
        exact foldl_set_not_mem p _ j hjp net.props

/-- Witness for C8 on the line network: the wall drawn between (3,0) and
(4,0) walks the path [3,4] and overwrites exactly sites 3 and 4. -/
theorem set_wall_spec_witness :
    (∃ p, seartch_path wNet (nearestIdx wNet.sites ⟨3, 0⟩)
        (nearestIdx wNet.sites ⟨4, 0⟩) 5 = Option.some (Option.some p) ∧
      (∀ i ∈ p, wallNet.props.getD i defaultProp = ⟨State.wall, Option.none⟩) ∧
      (∀ j, j ∉ p → wallNet.props.getD j defaultProp = wNet.props.getD j defaultProp)) ∨
    (seartch_path wNet (nearestIdx wNet.sites ⟨3, 0⟩)
        (nearestIdx wNet.sites ⟨4, 0⟩) 5 = Option.some Option.none ∧
      wallNet = wNet) :=
  set_wall_spec wNet 4 0 3 0 5 wallNet (by decide) (by decide) (by decide)
    (by decide)

lemma set_wall_cases (net : Network α) (x y px py : α) (fuel : Nat)
    (net' : Network α) (h : set_wall net x y px py fuel = Option.some net') :
    net' = net ∨ ∃ p : List Nat, net' = { net with
      props := p.foldl (fun ps idx => ps.set idx ⟨State.wall, Option.none⟩) net.props } := by
  simp only [set_wall] at h
  cases hs : seartch_path net (nearestIdx net.sites ⟨px, py⟩)
      (nearestIdx net.sites ⟨x, y⟩) fuel with
  | none =>
    rw [hs] at h
    exact Option.noConfusion h
  | some ro =>
    rw [hs] at h
    cases ro with
    | none => exact Or.inl (Option.some.inj h).symm
    | some p => exact Or.inr ⟨p, (Option.some.inj h).symm⟩

lemma symmetricGraph_of (graph : List (List Nat))
    (h : ∀ b, b < graph.length → ∀ a ∈ neighbors_of graph b,
      b ∈ neighbors_of graph a) :
    SymmetricGraph graph := by
  intro a b hab
  rcases lt_or_ge b graph.length with hb | hb
  · exact h b hb a hab
  · rw [show neighbors_of graph b = [] from getD_oob _ _ _ hb] at hab
    cases hab

/-- C7: on every network reachable from the all-`None` initialisation by any
sequence of seed, markWall, setLifetime and step calls, over a symmetric
adjacency graph, every site whose parent link is set points at a site of
which it is a graph-neighbor. -/
theorem reachable_parent_is_neighbor (net : Network α) (hr : Reachable net)
    (hsym : SymmetricGraph net.graph) : ParentsAreNeighbors net := by
  revert hsym
  induction hr with
  | init sites graph =>
    intro hsym i j hi hparent
    have hrep : (List.replicate sites.length defaultProp).getD i defaultProp =
        defaultProp := by
      rcases lt_or_ge i sites.length with h | h
      · simp [List.getD_eq_getElem?_getD, List.getElem?_replicate, h]
      · exact getD_oob _ _ _ (by simpa using h)
    have hd : (initNetwork sites graph).props.getD i defaultProp = defaultProp :=
      hrep
    rw [hd] at hparent
    exact Option.noConfusion hparent
  | seed x y hr ih =>
    rename_i net0
    intro hsym i j hi hparent
    by_cases hij : i = nearestIdx net0.sites ⟨x, y⟩
    · subst hij
      have hb : nearestIdx net0.sites ⟨x, y⟩ < net0.props.length := by
        simpa [set_start, List.length_set] using hi
      have heq : (set_start net0 x y).props.getD
          (nearestIdx net0.sites ⟨x, y⟩) defaultProp =
          ⟨State.live 0, Option.none⟩ := by
        simp only [set_start]
        exact getD_set_self _ _ _ _ hb
      rw [heq] at hparent
      exact Option.noConfusion hparent
    · have heq : (set_start net0 x y).props.getD i defaultProp =
          net0.props.getD i defaultProp := by
        simp only [set_start]
        exact getD_set_ne _ _ _ _ _ (Ne.symm hij)
      rw [heq] at hparent
      have hi0 : i < net0.props.length := by
        simpa [set_start, List.length_set] using hi
      exact ih hsym i j hi0 hparent
  | wall x y px py fuel hr hw ih =>
    rename_i net0 net1
    intro hsym i j hi hparent
    rcases set_wall_cases net0 x y px py fuel net1 hw with rfl | ⟨p, rfl⟩
    · exact ih hsym i j hi hparent
    · have hi0 : i < net0.props.length := by
        have hi' : i < (p.foldl
            (fun ps idx => ps.set idx ⟨State.wall, Option.none⟩)
            net0.props).length := hi
        rwa [foldl_set_length] at hi'
      by_cases hip : i ∈ p
      · have hparent' : ((p.foldl
            (fun ps idx => ps.set idx ⟨State.wall, Option.none⟩)
            net0.props).getD i defaultProp).parent = Option.some j := hparent
        rw [foldl_set_mem p _ i hip net0.props hi0] at hparent'
        exact Option.noConfusion hparent'
      · have hparent' : ((p.foldl
            (fun ps idx => ps.set idx ⟨State.wall, Option.none⟩)
            net0.props).getD i defaultProp).parent = Option.some j := hparent
        rw [foldl_set_not_mem p _ i hip net0.props] at hparent'
        exact ih hsym i j hi0 hparent'
  | life n hr ih =>
    rename_i net0
    intro hsym i j hi hparent
    exact ih hsym i j hi hparent
  | step hr ih =>
    rename_i net0
    intro hsym
    have hglen : (iterate net0).1.graph = net0.graph := iterate_graph net0
    have hsym0 : SymmetricGraph net0.graph := by rwa [hglen] at hsym
    intro i j hi hparent
    have hi0 : i < net0.props.length := by
      rwa [iterate_props_length net0] at hi
    rw [hglen]
    cases hL : net0.lifetime with
    | none =>
      have hiter : (iterate net0).1 = net0 := by simp [iterate, hL]
      rw [hiter] at hparent
      exact ih hsym0 i j hi0 hparent
    | some L =>
      rw [iterate_props_getD net0 L hL i hi0] at hparent
      cases hcur : net0.props.getD i defaultProp with
      | mk st par =>
        cases st with
        | none =>
          simp only [calculate_next_prop, hcur] at hparent
          by_cases hemp : ((neighbors_of net0.graph i).filter
              (fun n => isLiveState (net0.props.getD n defaultProp).state)).isEmpty = true
          · rw [if_pos hemp] at hparent
            exact ih hsym0 i j hi0 (by rw [hcur]; exact hparent)
          · rw [if_neg hemp] at hparent
            have hne : (neighbors_of net0.graph i).filter
                (fun n => isLiveState (net0.props.getD n defaultProp).state) ≠ [] := by
              intro hnil
              exact hemp (by rw [hnil]; rfl)
            have hpar : selMin
                (fun n => (net0.sites.getD i ⟨0, 0⟩).squared_distance
                  (net0.sites.getD n ⟨0, 0⟩))
                ((neighbors_of net0.graph i).filter
                  (fun n => isLiveState (net0.props.getD n defaultProp).state)) =
                Option.some j := hparent
            obtain ⟨m, hsel, hmem, -, -⟩ := selMin_spec
              (fun n => (net0.sites.getD i ⟨0, 0⟩).squared_distance
                (net0.sites.getD n ⟨0, 0⟩))
              ((neighbors_of net0.graph i).filter
                (fun n => isLiveState (net0.props.getD n defaultProp).state)) hne
            rw [hsel] at hpar
            obtain rfl : m = j := Option.some.inj hpar
            exact hsym0 m i (List.mem_filter.mp hmem).1
        | live age =>
          simp only [calculate_next_prop, hcur] at hparent
          by_cases hage : L ≤ age + 1
          · rw [if_pos hage] at hparent
            cases hfc : find_child net0 i with
            | some c =>
              rw [hfc] at hparent
              exact ih hsym0 i j hi0 (by rw [hcur]; exact hparent)
            | none =>
              rw [hfc] at hparent
              exact Option.noConfusion hparent
          · rw [if_neg hage] at hparent
            exact ih hsym0 i j hi0 (by rw [hcur]; exact hparent)
        | path c =>
          simp only [calculate_next_prop, hcur] at hparent
          by_cases hcp : (net0.props.getD c defaultProp).parent = Option.some i
          · rw [if_pos hcp] at hparent
            exact ih hsym0 i j hi0 (by rw [hcur]; exact hparent)
          · rw [if_neg hcp] at hparent
            cases hfc : find_child net0 i with
            | some c' =>
              rw [hfc] at hparent
              exact ih hsym0 i j hi0 (by rw [hcur]; exact hparent)
            | none =>
              rw [hfc] at hparent
              exact Option.noConfusion hparent
        | dead =>
          simp only [calculate_next_prop, hcur] at hparent
          exact Option.noConfusion hparent
        | wall =>
          simp only [calculate_next_prop, hcur] at hparent
          exact Option.noConfusion hparent

/-- Witness for C7: after seed-setLifetime-step on the line network (whose
graph is symmetric), site 1 has parent 0 and is indeed a neighbor of 0. -/
theorem reachable_parent_is_neighbor_witness :
    1 ∈ neighbors_of wNet1.graph 0 :=
  reachable_parent_is_neighbor wNet1
    (Reachable.step (Reachable.life 2 (Reachable.seed 0 0
      (Reachable.init wSites wGraph))))
    (symmetricGraph_of wGraph (by decide)) 1 0 (by decide) (by decide)

end Nenkin
